import Mathlib

/-!
Shallow embedding of the takt step-sequencer drum machine (src/App.tsx).

State and handlers are translated directly from the React component:
pure functions over an explicit `AppState`, with the audio side effects of
the playback tick reified as a list of `AudioEvent`s.  Numbers typed by the
user and stored in state (bpm, volumes, trigger offsets) are modelled as
rationals; step indices and counters as naturals.
-/

namespace Takt

/-- Sound resource: name and trigger offset in seconds (src/App.tsx 14-20).
The `audio`, `credit` and `color` fields are opaque to the sequencing logic
and are omitted. -/
structure Sound where
  name : String
  offset : ℚ
deriving DecidableEq

/-- Fixed board width, `const boardWidth = 16` (src/App.tsx 12). -/
def boardWidth : Nat := 16

/-- Configured sound list, in order (src/App.tsx 35-71): Kick offset 0,
Hi Hat offset 0.08, Snare offset 0, Clap offset 0. -/
def sounds : List Sound :=
  [⟨"Kick", 0⟩, ⟨"Hi Hat", 2/25⟩, ⟨"Snare", 0⟩, ⟨"Clap", 0⟩]

/-- The board, `Record<string, boolean[]>`, modelled as an association list
in key-insertion order; JS object keys are unique. -/
abbrev Board := List (String × List Bool)

/-- Builds the all-false board of width `boardWidth`, one row per sound in
order (src/App.tsx 445-450, a reduce appending each key). -/
def initializeBoard (ss : List Sound) : Board :=
  ss.map (fun s => (s.name, List.replicate boardWidth false))

/-- Saved beat record `{name, pattern, bpm, volumes}` (src/App.tsx 23-30). -/
structure Beat where
  name : String
  pattern : Board
  bpm : ℚ
  volumes : List ℚ
deriving DecidableEq

/-- The React component's state (src/App.tsx 23-95). -/
structure AppState where
  savedBeats : List Beat
  bpm : ℚ
  isPlaying : Bool
  currentCol : Nat
  board : Board
  mutes : List Bool
  volumes : List ℚ
deriving DecidableEq

/-- Initial state of the app when no URL volume override is present:
no saved beats, bpm 200, stopped at column 0, all-false board, all mutes
off, all volumes 0.5 (src/App.tsx 23-95). -/
def initialState : AppState :=
  { savedBeats := []
    bpm := 200
    isPlaying := false
    currentCol := 0
    board := initializeBoard sounds
    mutes := List.replicate sounds.length false
    volumes := sounds.map (fun _ => 1/2) }

/-- Lookup `sounds.find((x) => x.name === soundName)` (src/App.tsx 132). -/
def findSound (ss : List Sound) (n : String) : Option Sound :=
  ss.find? (fun s => s.name == n)

/-- Pattern generator (src/App.tsx 435-443): array of `width` falses, with
index `i` set true when `i % skip === offset`.  JS `i % 0` is `NaN`, and
`NaN === offset` is false, which the `skip != 0 &&` conjunct encodes. -/
def generatePattern (width skip offset : Nat) : List Bool :=
  (List.range width).map (fun i => skip != 0 && i % skip == offset)

/-- Character sequence of `row.join("")` for a boolean row: JS stringifies
`true`/`false` and concatenates with an empty separator (src/App.tsx 165). -/
def joinRow : List Bool → List Char
  | [] => []
  | true :: rest => 't' :: 'r' :: 'u' :: 'e' :: joinRow rest
  | false :: rest => 'f' :: 'a' :: 'l' :: 's' :: 'e' :: joinRow rest

/-- Object spread update `{...prev, [n]: row}`: replaces the value at key
`n` in place (keys are unique), or appends the key when absent. -/
def updateRow : Board → String → List Bool → Board
  | [], n, row => [(n, row)]
  | e :: rest, n, row =>
    if e.1 = n then (n, row) :: rest else e :: updateRow rest n row

/-- The `fillWithPattern` handler (src/App.tsx 159-169): generates the
pattern for `(step, skip)` and replaces the sound's row with it, unless the
row's `join("")` already equals the pattern's, in which case the row is
cleared to all-false.  `prev[soundName]` on an absent key is `undefined`
and `.join` on it throws, modelled as `none`. -/
def fillWithPattern (soundName : String) (step skip : Nat) (b : Board) :
    Option Board :=
  let pat := generatePattern boardWidth step skip
  match b.find? (fun e => e.1 == soundName) with
  | none => none
  | some e =>
    some (updateRow b soundName
      (if joinRow e.2 = joinRow pat then List.replicate boardWidth false
       else pat))

/-- Space-bar keyup handler (src/App.tsx 97-111): inside one `flushSync`,
sets `currentCol` to 0 and toggles `isPlaying`, in both directions. -/
def spaceKeyToggle (st : AppState) : AppState :=
  { st with currentCol := 0, isPlaying := !st.isPlaying }

/-- Play/pause button onClick (src/App.tsx 178): only toggles `isPlaying`;
`currentCol` is left untouched. -/
def playPauseButton (st : AppState) : AppState :=
  { st with isPlaying := !st.isPlaying }

/-- Bpm number-input onChange (src/App.tsx 191-193): stores
`Number(e.target.value)` verbatim; no clamping to the `min={1}`/`max={300}`
attributes happens in the handler. -/
def bpmInputOnChange (v : ℚ) : ℚ := v

/-- Tick period in milliseconds passed to `setInterval`,
`(60 / (bpm * 2)) * 1000` (src/App.tsx 146), with no guard on `bpm`.
JS division by zero yields `Infinity`, a non-finite period, modelled as
`none`. -/
def tickPeriodMs (bpm : ℚ) : Option ℚ :=
  if bpm * 2 = 0 then none else some (60 / (bpm * 2) * 1000)

/-- Audio side effects issued by one playback tick. -/
inductive AudioEvent where
  | pause (name : String)
  | setTime (name : String) (t : ℚ)
  | play (name : String)
deriving DecidableEq

/-- Name of the sound an audio event acts on. -/
def eventName : AudioEvent → String
  | .pause n => n
  | .setTime n _ => n
  | .play n => n

/-- First forEach of the tick callback (src/App.tsx 131-136): for every
board row whose name matches a configured sound, pause it and rewind its
playback position to its trigger offset; unmatched rows are skipped. -/
def rewindEvents (ss : List Sound) : Board → List AudioEvent
  | [] => []
  | e :: rest =>
    (match findSound ss e.1 with
      | none => []
      | some s => [AudioEvent.pause s.name, AudioEvent.setTime s.name s.offset]) ++
    rewindEvents ss rest

/-- Second forEach of the tick callback (src/App.tsx 138-145), with the
running entry index `idx` made explicit: a matched sound is started when
`beats[col]` is true and `mutedSounds[idx]` is not; out-of-range reads are
`undefined`, i.e. falsy, hence the `getD _ false` defaults. -/
def playEventsAux (ss : List Sound) (muted : List Bool) (col : Nat) :
    Nat → Board → List AudioEvent
  | _, [] => []
  | idx, e :: rest =>
    (match findSound ss e.1 with
      | none => []
      | some s =>
        if e.2.getD col false && !(muted.getD idx false) then
          [AudioEvent.play s.name]
        else []) ++
    playEventsAux ss muted col (idx + 1) rest

/-- One firing of the `setInterval` callback while playing
(src/App.tsx 116-145): snapshot `col := currentCol` and the mute vector
inside `flushSync`, publish `currentCol := (col + 1) % boardWidth`, then
run the rewind pass and the play pass against the snapshots.  Returns the
new state and the emitted audio events. -/
def tick (ss : List Sound) (st : AppState) : AppState × List AudioEvent :=
  let col := st.currentCol
  let mutedSounds := st.mutes
  ({ st with currentCol := (col + 1) % boardWidth },
   rewindEvents ss st.board ++ playEventsAux ss mutedSounds col 0 st.board)

/-- Volume range-input onInput handler (src/App.tsx 266-272): copies the
volume array and stores `Number(e.target.value)` at `idx` verbatim. -/
def setVolume (idx : Nat) (v : ℚ) (st : AppState) : AppState :=
  { st with volumes := st.volumes.set idx v }

/-- Volume range-input onDoubleClick handler (src/App.tsx 259-265): sets
the volume at `idx` back to 0.5. -/
def doubleClickResetVolume (idx : Nat) (st : AppState) : AppState :=
  { st with volumes := st.volumes.set idx (1/2) }

/-- Default text offered by the save prompt (src/App.tsx 198-201). -/
def savePromptDefault (st : AppState) : String :=
  "Untitled " ++ toString (st.savedBeats.length + 1)

/-- Save-as-new-beat onClick (src/App.tsx 195-208), with the prompt's
result passed in: `null` (cancel) or the empty string are falsy and abort
with no state change; otherwise the beat is appended and the board is
reset to the initial all-false grid. -/
def saveAsNew (promptResult : Option String) (st : AppState) : AppState :=
  match promptResult with
  | none => st
  | some name =>
    if name = "" then st
    else
      { st with
        savedBeats := st.savedBeats ++
          [{ name := name, pattern := st.board, bpm := st.bpm,
             volumes := st.volumes }]
        board := initializeBoard sounds }

/-- Rename button onClick (src/App.tsx 408-421), with the prompt's result
passed in: a falsy result (cancel or empty) leaves the state unchanged;
otherwise the beat at `idx` is replaced by `{...beat, name: newName}`. -/
def renameBeat (idx : Nat) (promptResult : Option String) (st : AppState) :
    AppState :=
  match promptResult with
  | none => st
  | some newName =>
    if newName = "" then st
    else
      match st.savedBeats.get? idx with
      | none => st
      | some beat =>
        { st with
          savedBeats := st.savedBeats.set idx { beat with name := newName } }

/-- Load button onClick (src/App.tsx 360-368): applies the saved beat's
pattern and bpm only; volumes, mutes and transport state are untouched. -/
def loadBeat (idx : Nat) (st : AppState) : AppState :=
  match st.savedBeats.get? idx with
  | none => st
  | some beat => { st with board := beat.pattern, bpm := beat.bpm }

/-- Stopped state frozen mid-bar at column 5, for the transport
counterexample. -/
def midBarStopped : AppState := { initialState with currentCol := 5 }

/-- Board whose Kick row already equals the divisor-4 offset-0 pattern. -/
def kickPatternBoard : Board :=
  updateRow (initializeBoard sounds) "Kick" (generatePattern 16 4 0)

/-- Kick row with a single hit on the first step. -/
def kickRow : List Bool := true :: List.replicate 15 false

/-- Playing state whose Kick row fires on column 0, for the tick witness. -/
def tickDemoState : AppState :=
  { initialState with
    isPlaying := true
    board := updateRow (initializeBoard sounds) "Kick" kickRow }

/-- State with one saved beat, for the rename and load witnesses. -/
def oneSavedState : AppState :=
  { initialState with
    savedBeats := [{ name := "A", pattern := initializeBoard sounds,
                     bpm := 120, volumes := [1/2, 1/2, 1/2, 1/2] }] }

/- ------------------------------------------------------------------ -/
/- Helper lemmas -/
/- ------------------------------------------------------------------ -/

/-- JS `join("")` on boolean arrays is injective: `"true"`/`"false"` form a
prefix-free code, so equal joined strings force equal rows. -/
theorem joinRow_injective : ∀ {a b : List Bool}, joinRow a = joinRow b → a = b := by
  intro a
  induction a with
  | nil =>
    intro b h
    cases b with
    | nil => rfl
    | cons y ys => cases y <;> simp [joinRow] at h
  | cons x xs ih =>
    intro b h
    cases b with
    | nil => cases x <;> simp [joinRow] at h
    | cons y ys =>
      cases x <;> cases y <;> simp [joinRow] at h
      · rw [ih h]
      · rw [ih h]

/-- After `updateRow`, the key's row is found and is the new row. -/
theorem find?_updateRow (b : Board) (n : String) (row : List Bool) :
    (updateRow b n row).find? (fun e => e.1 == n) = some (n, row) := by
  induction b with
  | nil => simp [updateRow, List.find?]
  | cons e rest ih =>
    by_cases h : e.1 = n
    · simp [updateRow, h, List.find?]
    · simp only [updateRow, if_neg h]
      rw [List.find?_cons_of_neg, ih]
      simpa using h

/-- Setting index `i` makes `get? i` return the new value. -/
theorem get?_set_self {α : Type} (l : List α) (i : Nat) (a : α)
    (h : i < l.length) : (l.set i a).get? i = some a := by
  induction l generalizing i with
  | nil => simp at h
  | cons x xs ih =>
    cases i with
    | zero => rfl
    | succ n =>
      simp only [List.set, List.get?_cons_succ]
      exact ih n (by simpa using h)

/-- Setting index `i` leaves `get?` at any other index unchanged. -/
theorem get?_set_other {α : Type} (l : List α) (i j : Nat) (a : α)
    (h : ¬ j = i) : (l.set i a).get? j = l.get? j := by
  induction l generalizing i j with
  | nil => simp
  | cons x xs ih =>
    cases i with
    | zero =>
      cases j with
      | zero => exact absurd rfl h
      | succ m => simp [List.set]
    | succ n =>
      cases j with
      | zero => simp [List.set]
      | succ m =>
        simp only [List.set, List.get?_cons_succ]
        exact ih n m (fun hh => h (by rw [hh]))

/-- A successful `findSound` returns a sound bearing the looked-up name. -/
theorem findSound_name {ss : List Sound} {n : String} {s : Sound}
    (h : findSound ss n = some s) : s.name = n := by
  have := List.find?_some h
  simpa using this

/-- Audio events of the rewind pass only name configured sounds. -/
theorem mem_rewind_isSome {ss : List Sound} {ev : AudioEvent} :
    ∀ {b : Board}, ev ∈ rewindEvents ss b → (findSound ss (eventName ev)).isSome := by
  intro b
  induction b with
  | nil => intro h; simp [rewindEvents] at h
  | cons e rest ih =>
    intro h
    rcases List.mem_append.mp h with h1 | h2
    · cases hf : findSound ss e.1 with
      | none => rw [hf] at h1; simp at h1
      | some s =>
        rw [hf] at h1
        have hn : s.name = e.1 := findSound_name hf
        rcases List.mem_cons.mp h1 with h1 | h1
        · subst h1; simp [eventName, hn, hf]
        · rcases List.mem_singleton.mp h1 with rfl
          simp [eventName, hn, hf]
    · exact ih h2

/-- Audio events of the play pass only name configured sounds. -/
theorem mem_playAux_isSome {ss : List Sound} {muted : List Bool} {col : Nat}
    {ev : AudioEvent} :
    ∀ {k : Nat} {b : Board}, ev ∈ playEventsAux ss muted col k b →
      (findSound ss (eventName ev)).isSome := by
  intro k b
  induction b generalizing k with
  | nil => intro h; simp [playEventsAux] at h
  | cons e rest ih =>
    intro h
    rcases List.mem_append.mp h with h1 | h2
    · cases hf : findSound ss e.1 with
      | none => simp only [hf] at h1; simp at h1
      | some s =>
        simp only [hf] at h1
        have hn : s.name = e.1 := findSound_name hf
        by_cases hc : (e.2.getD col false && !(muted.getD k false)) = true
        · rw [if_pos hc] at h1
          rcases List.mem_singleton.mp h1 with rfl
          simp [eventName, hn, hf]
        · rw [if_neg hc] at h1; simp at h1
    · exact ih h2

/-- Play events never occur in the rewind pass. -/
theorem play_not_mem_rewind {ss : List Sound} (n : String) :
    ∀ {b : Board}, AudioEvent.play n ∉ rewindEvents ss b := by
  intro b
  induction b with
  | nil => simp [rewindEvents]
  | cons e rest ih =>
    intro h
    rcases List.mem_append.mp h with h1 | h2
    · cases hf : findSound ss e.1 <;> rw [hf] at h1 <;> simp at h1
    · exact ih h2

/-- Membership characterisation of the play pass, generalised over the
starting entry index `k`: a play event for `n` occurs exactly when some
board entry at position `idx` is named `n`, names a configured sound, is
on at `col`, and the mute snapshot at `idx` is off. -/
theorem play_mem_playAux {ss : List Sound} {muted : List Bool} {col : Nat}
    (n : String) :
    ∀ (b : Board) (k : Nat),
      (AudioEvent.play n ∈ playEventsAux ss muted col k b ↔
        ∃ idx e, b.get? idx = some e ∧ e.1 = n ∧ (findSound ss n).isSome ∧
          e.2.getD col false = true ∧ muted.getD (k + idx) false = false) := by
  intro b
  induction b with
  | nil => intro k; simp [playEventsAux]
  | cons e rest ih =>
    intro k
    constructor
    · intro h
      rcases List.mem_append.mp h with h1 | h2
      · cases hf : findSound ss e.1 with
        | none => simp only [hf] at h1; simp at h1
        | some s =>
          simp only [hf] at h1
          by_cases hc : (e.2.getD col false && !(muted.getD k false)) = true
          · rw [if_pos hc] at h1
            have hev : AudioEvent.play s.name = AudioEvent.play n :=
              (List.mem_singleton.mp h1).symm
            have hs : s.name = n := by injection hev
            have hen : e.1 = n := by rw [← findSound_name hf, hs]
            obtain ⟨hcol, hmut⟩ :
                e.2.getD col false = true ∧ muted.getD k false = false := by
              simpa using hc
            refine ⟨0, e, List.get?_cons_zero, hen, ?_, hcol, by simpa using hmut⟩
            rw [← hen, hf]; rfl
          · rw [if_neg hc] at h1; simp at h1
      · rcases (ih (k + 1)).mp h2 with ⟨idx, e2, hget, hen, hfind, hcol, hmut⟩
        refine ⟨idx + 1, e2, ?_, hen, hfind, hcol, ?_⟩
        · simpa using hget
        · have : k + (idx + 1) = k + 1 + idx := by omega
          rw [this]; exact hmut
    · rintro ⟨idx, e2, hget, hen, hfind, hcol, hmut⟩
      cases idx with
      | zero =>
        have he : e = e2 := by
          have := hget
          rw [List.get?_cons_zero] at this
          exact Option.some.inj this
        subst he
        rcases Option.isSome_iff_exists.mp hfind with ⟨s, hs⟩
        have hsn : s.name = n := findSound_name hs
        have hk : muted.getD k false = false := by simpa using hmut
        apply List.mem_append.mpr
        left
        rw [hen, hs]
        show AudioEvent.play n ∈
          (if e.2.getD col false && !(muted.getD k false) then
            [AudioEvent.play s.name] else [])
        rw [hcol, hk]
        simp [hsn]
      | succ m =>
        apply List.mem_append.mpr
        right
        apply (ih (k + 1)).mpr
        refine ⟨m, e2, by simpa using hget, hen, hfind, hcol, ?_⟩
        have : k + 1 + m = k + (m + 1) := by omega
        rw [this]; exact hmut

/-- A board row naming a configured sound gets a rewind-to-offset event. -/
theorem setTime_mem_rewind {ss : List Sound} {n : String} {s : Sound}
    (hf : findSound ss n = some s) :
    ∀ {b : Board} {e : String × List Bool}, e ∈ b → e.1 = n →
      AudioEvent.setTime n s.offset ∈ rewindEvents ss b := by
  intro b
  induction b with
  | nil => intro e h _; simp at h
  | cons e0 rest ih =>
    intro e h hen
    rcases List.mem_cons.mp h with he | hrest
    · apply List.mem_append.mpr
      left
      subst he
      rw [hen, hf]
      have hsn : s.name = n := findSound_name hf
      simp [hsn]
    · exact List.mem_append.mpr (Or.inr (ih hrest hen))

/-- Iterating the tick from any in-range column advances the column by the
tick count, modulo the board width. -/
theorem tick_iterate_currentCol (ss : List Sound) (st : AppState)
    (h : st.currentCol < boardWidth) :
    ∀ N : Nat, ((fun s => (tick ss s).1)^[N] st).currentCol =
      (st.currentCol + N) % boardWidth := by
  intro N
  induction N with
  | zero => simpa using (Nat.mod_eq_of_lt h).symm
  | succ n ihn =>
    rw [Function.iterate_succ_apply']
    show (((fun s => (tick ss s).1)^[n] st).currentCol + 1) % boardWidth = _
    rw [ihn, Nat.mod_add_mod, Nat.add_assoc]

/-- An index with a `get?` hit is in range. -/
theorem lt_length_of_get?_some {α : Type} {l : List α} {i : Nat} {a : α}
    (h : l.get? i = some a) : i < l.length := by
  by_contra hge
  rw [List.get?_eq_none.mpr (Nat.le_of_not_lt hge)] at h
  cases h

/-- Every audio event a tick emits names a configured sound. -/
theorem mem_tick_isSome {ss : List Sound} {st : AppState} {ev : AudioEvent}
    (h : ev ∈ (tick ss st).2) : (findSound ss (eventName ev)).isSome := by
  rcases List.mem_append.mp h with h1 | h2
  · exact mem_rewind_isSome h1
  · exact mem_playAux_isSome h2

/- ------------------------------------------------------------------ -/
/- Claims -/
/- ------------------------------------------------------------------ -/

/-- C1 (counterexample): the play/pause button on a Stopped state frozen
mid-bar at column 5 starts playback without resetting the step to 0, and
the space-bar toggle on a Playing state resets the step to 0 even on the
Playing to Stopped direction, so neither half of the claimed transition
behaviour holds of the code. -/
theorem C1_counterexample :
    midBarStopped.isPlaying = false ∧
    (playPauseButton midBarStopped).isPlaying = true ∧
    (playPauseButton midBarStopped).currentCol = 5 ∧
    ¬ (playPauseButton midBarStopped).currentCol = 0 ∧
    (spaceKeyToggle { midBarStopped with isPlaying := true }).isPlaying = false ∧
    (spaceKeyToggle { midBarStopped with isPlaying := true }).currentCol = 0 ∧
    ¬ (spaceKeyToggle { midBarStopped with isPlaying := true }).currentCol = 5 := by
  refine ⟨rfl, rfl, rfl, by decide, rfl, rfl, by decide⟩

/-- C1 (amended): the space-bar shortcut resets currentStep to 0 together
with every isPlaying flip, in both directions; the play/pause button flips
isPlaying and leaves currentStep untouched in both directions; while
Playing, after N ticks starting from currentStep 0, currentStep is
N mod 16. -/
theorem C1_amended (st : AppState) (N : Nat) :
    (spaceKeyToggle st).currentCol = 0 ∧
    (spaceKeyToggle st).isPlaying = !st.isPlaying ∧
    (playPauseButton st).currentCol = st.currentCol ∧
    (playPauseButton st).isPlaying = !st.isPlaying ∧
    ((fun s => (tick sounds s).1)^[N] { st with currentCol := 0 }).currentCol
      = N % boardWidth := by
  refine ⟨rfl, rfl, rfl, rfl, ?_⟩
  have h := tick_iterate_currentCol sounds { st with currentCol := 0 }
    (show (0 : Nat) < boardWidth by decide) N
  simpa using h

/-- C2 (code bug): the bpm onChange handler stores the typed value with no
clamping and the tick effect schedules the interval at
`60 / (bpm * 2) * 1000` ms unguarded, so bpm 0 (a cleared input) yields a
non-finite period and bpm -10 a negative one, while the in-range tempos 1
and 300 give the expected positive periods. -/
theorem C2_code_bug :
    bpmInputOnChange (-10) = -10 ∧
    tickPeriodMs (bpmInputOnChange (-10)) = some (-3000) ∧
    tickPeriodMs (bpmInputOnChange 0) = none ∧
    tickPeriodMs (bpmInputOnChange 1) = some 30000 ∧
    tickPeriodMs (bpmInputOnChange 300) = some 100 := by
  refine ⟨rfl, ?_, ?_, ?_, ?_⟩
  · rw [bpmInputOnChange, tickPeriodMs, if_neg (by norm_num)]
    norm_num
  · rw [bpmInputOnChange, tickPeriodMs, if_pos (by norm_num)]
  · rw [bpmInputOnChange, tickPeriodMs, if_neg (by norm_num)]
    norm_num
  · rw [bpmInputOnChange, tickPeriodMs, if_neg (by norm_num)]
    norm_num

/-- C3: a sound is started by a tick exactly when some board row bearing
its name names a configured sound, is on at the snapshotted column, and
the mute snapshot at that row's index is off; rows naming no configured
sound contribute no audio events at all; and every started sound was first
rewound to its own trigger offset within the same tick. -/
theorem C3_tick (ss : List Sound) (st : AppState) (n : String) :
    (AudioEvent.play n ∈ (tick ss st).2 ↔
      ∃ idx e, st.board.get? idx = some e ∧ e.1 = n ∧
        (findSound ss n).isSome ∧ e.2.getD st.currentCol false = true ∧
        st.mutes.getD idx false = false) ∧
    (findSound ss n = none → ∀ t : ℚ,
      AudioEvent.pause n ∉ (tick ss st).2 ∧
      AudioEvent.setTime n t ∉ (tick ss st).2 ∧
      AudioEvent.play n ∉ (tick ss st).2) ∧
    (∀ s : Sound, findSound ss n = some s →
      AudioEvent.play n ∈ (tick ss st).2 →
      AudioEvent.setTime n s.offset ∈ (tick ss st).2) := by
  have htick : (tick ss st).2 =
      rewindEvents ss st.board ++
        playEventsAux ss st.mutes st.currentCol 0 st.board := rfl
  refine ⟨?_, ?_, ?_⟩
  · rw [htick]
    constructor
    · intro h
      rcases List.mem_append.mp h with h1 | h2
      · exact absurd h1 (play_not_mem_rewind n)
      · rcases (play_mem_playAux n st.board 0).mp h2 with
          ⟨idx, e, hg, hen, hf, hcol, hmut⟩
        exact ⟨idx, e, hg, hen, hf, hcol, by simpa using hmut⟩
    · rintro ⟨idx, e, hg, hen, hf, hcol, hmut⟩
      apply List.mem_append.mpr
      right
      exact (play_mem_playAux n st.board 0).mpr
        ⟨idx, e, hg, hen, hf, hcol, by simpa using hmut⟩
  · intro hnone t
    refine ⟨?_, ?_, ?_⟩ <;> intro hmem <;>
      · have h := mem_tick_isSome hmem
        rw [eventName] at h
        rw [hnone] at h
        simp at h
  · intro s hs hplay
    rw [htick] at hplay
    rcases List.mem_append.mp hplay with h1 | h2
    · exact absurd h1 (play_not_mem_rewind n)
    · rcases (play_mem_playAux n st.board 0).mp h2 with
        ⟨idx, e, hg, hen, _, _, _⟩
      rw [htick]
      exact List.mem_append.mpr
        (Or.inl (setTime_mem_rewind hs (List.get?_mem hg) hen))

/-- C3 (witness): in a playing state whose Kick row has a hit on column 0,
the tick starts the Kick. -/
theorem C3_witness : AudioEvent.play "Kick" ∈ (tick sounds tickDemoState).2 :=
  (C3_tick sounds tickDemoState "Kick").1.mpr
    ⟨0, ("Kick", kickRow), by decide, rfl, by decide, by decide, by decide⟩

/-- C4 (counterexample): on a board whose Kick row already equals the
divisor-4 offset-0 pattern, two identical fill presses leave the row equal
to the pattern again (first press clears, second refills), not all-false,
refuting the universally quantified round trip. -/
theorem C4_counterexample :
    (fillWithPattern "Kick" 4 0 kickPatternBoard).bind
        (fillWithPattern "Kick" 4 0) = some kickPatternBoard ∧
    kickPatternBoard.find? (fun x => x.1 == "Kick") =
      some ("Kick", generatePattern 16 4 0) ∧
    ¬ generatePattern 16 4 0 = List.replicate boardWidth false := by
  refine ⟨by decide, by decide, by decide⟩

/-- C4 (amended): two identical fill applications return the sound's row
to all-false whenever the row did not already equal the generated pattern
beforehand; the resulting board is the one with that row cleared. -/
theorem C4_amended (b : Board) (n : String) (step skip : Nat)
    (e : String × List Bool) (he : b.find? (fun x => x.1 == n) = some e)
    (hne : e.2 ≠ generatePattern boardWidth step skip) :
    (fillWithPattern n step skip b).bind (fillWithPattern n step skip) =
      some (updateRow (updateRow b n (generatePattern boardWidth step skip)) n
        (List.replicate boardWidth false)) ∧
    (updateRow (updateRow b n (generatePattern boardWidth step skip)) n
      (List.replicate boardWidth false)).find? (fun x => x.1 == n) =
      some (n, List.replicate boardWidth false) := by
  have hjoin : ¬ (joinRow e.2 = joinRow (generatePattern boardWidth step skip)) :=
    fun h => hne (joinRow_injective h)
  refine ⟨?_, find?_updateRow _ _ _⟩
  simp only [fillWithPattern, he, if_neg hjoin, Option.some_bind,
    find?_updateRow, eq_self_iff_true, if_true]

/-- C4 (witness): from the all-false board, two identical divisor-4 fill
presses on the Kick row produce the doubly updated board whose Kick row is
all-false again. -/
theorem C4_witness :
    (fillWithPattern "Kick" 4 0 (initializeBoard sounds)).bind
        (fillWithPattern "Kick" 4 0) =
      some (updateRow (updateRow (initializeBoard sounds) "Kick"
        (generatePattern boardWidth 4 0)) "Kick"
        (List.replicate boardWidth false)) :=
  (C4_amended (initializeBoard sounds) "Kick" 4 0
    ("Kick", List.replicate boardWidth false) (by decide) (by decide)).1

/-- C5: for a divisor of at least 1, step i of the generated pattern is
true exactly when i mod divisor equals the offset, and the width-16
divisor-4 offset-0 pattern is true exactly at indices 0, 4, 8 and 12. -/
theorem C5_pattern (width skip offset i : Nat) (hskip : 1 ≤ skip)
    (hi : i < width) :
    ((generatePattern width skip offset).get? i = some true ↔
      i % skip = offset) ∧
    generatePattern 16 4 0 =
      [true, false, false, false, true, false, false, false,
       true, false, false, false, true, false, false, false] := by
  refine ⟨?_, by decide⟩
  have h0 : skip ≠ 0 := Nat.one_le_iff_ne_zero.mp hskip
  simp [generatePattern, List.getElem?_range hi, h0]

/-- C5 (witness): instantiated at width 16, divisor 4, offset 0, index 4. -/
theorem C5_witness :
    ((generatePattern 16 4 0).get? 4 = some true ↔ 4 % 4 = 0) ∧
    generatePattern 16 4 0 =
      [true, false, false, false, true, false, false, false,
       true, false, false, false, true, false, false, false] :=
  C5_pattern 16 4 0 4 (by decide) (by decide)

/-- C6 (counterexample): the volume onInput handler stores 7/5 verbatim at
index 0, an out-of-range value, with no rejection or clamping. -/
theorem C6_counterexample :
    (setVolume 0 (7/5) initialState).volumes = [7/5, 1/2, 1/2, 1/2] ∧
    ¬ ((7 : ℚ)/5 ≤ 1) ∧
    ¬ ((7 : ℚ)/5 = 1/2) := by
  refine ⟨rfl, by norm_num, by norm_num⟩

/-- C6 (amended): setVolume stores the given value verbatim at the given
index (no clamping; the [0,1] range is enforced only by the UI range
input), doubleClickResetVolume always stores exactly 1/2 there, and both
leave every other index unchanged. -/
theorem C6_amended (st : AppState) (idx : Nat) (v : ℚ)
    (h : idx < st.volumes.length) :
    (setVolume idx v st).volumes.get? idx = some v ∧
    (doubleClickResetVolume idx st).volumes.get? idx = some (1/2) ∧
    (∀ j, ¬ j = idx →
      (setVolume idx v st).volumes.get? j = st.volumes.get? j ∧
      (doubleClickResetVolume idx st).volumes.get? j = st.volumes.get? j) := by
  refine ⟨get?_set_self _ _ _ h, get?_set_self _ _ _ h, ?_⟩
  intro j hj
  exact ⟨get?_set_other _ _ _ _ hj, get?_set_other _ _ _ _ hj⟩

/-- C6 (witness): storing 7/5 at index 0 of the initial state. -/
theorem C6_witness :
    (setVolume 0 (7/5) initialState).volumes.get? 0 = some (7/5) :=
  (C6_amended initialState 0 (7/5) (by decide)).1

/-- C7 (counterexample): save the initial state as "A" (volumes all 1/2),
then move volume 0 to 9/10, then load preset 0: the loaded state keeps
volume 9/10, even though the preset stores volumes all 1/2 — loading does
not apply the stored volumes. -/
theorem C7_counterexample :
    (saveAsNew (some "A") initialState).savedBeats.get? 0 =
      some { name := "A", pattern := initializeBoard sounds, bpm := 200,
             volumes := [1/2, 1/2, 1/2, 1/2] } ∧
    (loadBeat 0 (setVolume 0 (9/10) (saveAsNew (some "A") initialState))).volumes
      = [9/10, 1/2, 1/2, 1/2] ∧
    ¬ ((9 : ℚ)/10 = 1/2) := by
  refine ⟨rfl, rfl, by norm_num⟩

/-- C7 (amended): saving appends a beat holding exactly the current
pattern, tempo and volumes, and loading applies only the stored pattern
and tempo; volumes, mutes and transport state are left unchanged by the
load. -/
theorem C7_amended (st : AppState) (name : String) (hn : ¬ name = "")
    (st2 : AppState) (idx : Nat) (beat : Beat)
    (hb : st2.savedBeats.get? idx = some beat) :
    (saveAsNew (some name) st).savedBeats =
      st.savedBeats ++ [{ name := name, pattern := st.board, bpm := st.bpm,
                          volumes := st.volumes }] ∧
    (loadBeat idx st2).board = beat.pattern ∧
    (loadBeat idx st2).bpm = beat.bpm ∧
    (loadBeat idx st2).volumes = st2.volumes ∧
    (loadBeat idx st2).mutes = st2.mutes ∧
    (loadBeat idx st2).isPlaying = st2.isPlaying := by
  have hS : saveAsNew (some name) st =
      { st with
        savedBeats := st.savedBeats ++
          [{ name := name, pattern := st.board, bpm := st.bpm,
             volumes := st.volumes }]
        board := initializeBoard sounds } := by
    simp only [saveAsNew, if_neg hn]
  have hL : loadBeat idx st2 =
      { st2 with board := beat.pattern, bpm := beat.bpm } := by
    simp only [loadBeat, hb]
  rw [hS, hL]
  exact ⟨rfl, rfl, rfl, rfl, rfl, rfl⟩

/-- C7 (witness): loading the single saved beat of a one-beat state
applies its pattern. -/
theorem C7_witness :
    (loadBeat 0 oneSavedState).board = Beat.pattern
      { name := "A", pattern := initializeBoard sounds, bpm := 120,
        volumes := [1/2, 1/2, 1/2, 1/2] } :=
  (C7_amended oneSavedState "A" (by decide) oneSavedState 0
    { name := "A", pattern := initializeBoard sounds, bpm := 120,
      volumes := [1/2, 1/2, 1/2, 1/2] } rfl).2.1

/-- C8: a cancelled or empty name prompt aborts both the save and the
rename with no state change at all, and the save prompt's default text is
"Untitled (n+1)" for n currently saved presets. -/
theorem C8_promptCancel (st : AppState) (idx : Nat) :
    saveAsNew none st = st ∧
    saveAsNew (some "") st = st ∧
    renameBeat idx none st = st ∧
    renameBeat idx (some "") st = st ∧
    savePromptDefault st = "Untitled " ++ toString (st.savedBeats.length + 1) := by
  refine ⟨rfl, by simp [saveAsNew], rfl, by simp [renameBeat], rfl⟩

/-- C9: renaming a saved preset replaces only its name; its pattern, tempo
and volumes, every other preset, and the rest of the application state are
unchanged. -/
theorem C9_rename (st : AppState) (idx : Nat) (beat : Beat) (newName : String)
    (hb : st.savedBeats.get? idx = some beat) (hn : ¬ newName = "") :
    (renameBeat idx (some newName) st).savedBeats.get? idx =
      some { name := newName, pattern := beat.pattern, bpm := beat.bpm,
             volumes := beat.volumes } ∧
    (∀ j, ¬ j = idx →
      (renameBeat idx (some newName) st).savedBeats.get? j =
        st.savedBeats.get? j) ∧
    (renameBeat idx (some newName) st).board = st.board ∧
    (renameBeat idx (some newName) st).bpm = st.bpm ∧
    (renameBeat idx (some newName) st).volumes = st.volumes ∧
    (renameBeat idx (some newName) st).mutes = st.mutes ∧
    (renameBeat idx (some newName) st).isPlaying = st.isPlaying ∧
    (renameBeat idx (some newName) st).currentCol = st.currentCol := by
  have hlen : idx < st.savedBeats.length := lt_length_of_get?_some hb
  have hR : renameBeat idx (some newName) st =
      { st with
        savedBeats := st.savedBeats.set idx
          { name := newName, pattern := beat.pattern, bpm := beat.bpm,
            volumes := beat.volumes } } := by
    simp only [renameBeat, if_neg hn, hb]
  rw [hR]
  exact ⟨get?_set_self _ _ _ hlen,
    fun j hj => get?_set_other _ _ _ _ hj, rfl, rfl, rfl, rfl, rfl, rfl⟩

/-- C9 (witness): renaming the single saved beat of a one-beat state to
"B" yields a beat differing only in the name. -/
theorem C9_witness :
    (renameBeat 0 (some "B") oneSavedState).savedBeats.get? 0 =
      some { name := "B",
             pattern := Beat.pattern
               { name := "A", pattern := initializeBoard sounds, bpm := 120,
                 volumes := [1/2, 1/2, 1/2, 1/2] },
             bpm := Beat.bpm
               { name := "A", pattern := initializeBoard sounds, bpm := 120,
                 volumes := [1/2, 1/2, 1/2, 1/2] },
             volumes := Beat.volumes
               { name := "A", pattern := initializeBoard sounds, bpm := 120,
                 volumes := [1/2, 1/2, 1/2, 1/2] } } :=
  (C9_rename oneSavedState 0
    { name := "A", pattern := initializeBoard sounds, bpm := 120,
      volumes := [1/2, 1/2, 1/2, 1/2] } "B" rfl (by decide)).1

/-- C10: a successful save-as-new appends the beat snapshot and resets the
board to the all-false initial grid, leaving tempo, volumes, mutes and
transport state unchanged. -/
theorem C10_saveResets (st : AppState) (name : String) (hn : ¬ name = "") :
    (saveAsNew (some name) st).savedBeats =
      st.savedBeats ++ [{ name := name, pattern := st.board, bpm := st.bpm,
                          volumes := st.volumes }] ∧
    (saveAsNew (some name) st).board = initializeBoard sounds ∧
    (∀ e ∈ (saveAsNew (some name) st).board,
      e.2 = List.replicate boardWidth false) ∧
    (saveAsNew (some name) st).bpm = st.bpm ∧
    (saveAsNew (some name) st).volumes = st.volumes ∧
    (saveAsNew (some name) st).mutes = st.mutes ∧
    (saveAsNew (some name) st).isPlaying = st.isPlaying ∧
    (saveAsNew (some name) st).currentCol = st.currentCol := by
  have hS : saveAsNew (some name) st =
      { st with
        savedBeats := st.savedBeats ++
          [{ name := name, pattern := st.board, bpm := st.bpm,
             volumes := st.volumes }]
        board := initializeBoard sounds } := by
    simp only [saveAsNew, if_neg hn]
  rw [hS]
  refine ⟨rfl, rfl, ?_, rfl, rfl, rfl, rfl, rfl⟩
  intro e he
  rcases List.mem_map.mp he with ⟨s, _, rfl⟩
  rfl

/-- C10 (witness): saving the initial state as "A" appends the snapshot. -/
theorem C10_witness :
    (saveAsNew (some "A") initialState).savedBeats =
      initialState.savedBeats ++
        [{ name := "A", pattern := initialState.board,
           bpm := initialState.bpm, volumes := initialState.volumes }] :=
  (C10_saveResets initialState "A" (by decide)).1

end Takt
